import Mathlib

/-!
Shallow embedding of `objects.py` from the `queuing_systems` repository:
a discrete-event polyclinic queueing simulation built on simpy.
Simulated time and all sampled durations are modelled as rationals;
the Python dict used for the statistic history is modelled as an
association list with in-place update of an existing key.
-/

/-- The `_history` dict update `self._history[now] = v`: if the key is
already present its value is replaced in place, otherwise the pair is
appended at the end (Python dicts keep insertion order of keys). -/
def dictInsert (k v : ℚ) : List (ℚ × ℚ) → List (ℚ × ℚ)
  | [] => [(k, v)]
  | (k', v') :: rest => if k' = k then (k, v) :: rest else (k', v') :: dictInsert k v rest

/-- Keys of the history dict, in insertion order. -/
def keys (d : List (ℚ × ℚ)) : List ℚ := d.map Prod.fst

/-- Embeds `StatisticValue`: current value, running maximum and the raw
history dict (`self.env` is implicit; the current simulated time is passed
to each mutator). -/
structure StatisticValue where
  value : ℚ
  max_value : ℚ
  hist : List (ℚ × ℚ)
deriving DecidableEq, Repr

/-- `StatisticValue.__init__`: value 0, max 0, empty history. -/
def StatisticValue.init : StatisticValue :=
  { value := 0, max_value := 0, hist := [] }

/-- `StatisticValue.__iadd__`: `value += other`, write `(now, value)` to the
history dict, then `max_value = max(value, max_value)`. -/
def StatisticValue.iadd (s : StatisticValue) (now other : ℚ) : StatisticValue :=
  { value := s.value + other
    max_value := max (s.value + other) s.max_value
    hist := dictInsert now (s.value + other) s.hist }

/-- `StatisticValue.__isub__`: `value -= other`, write `(now, value)` to the
history dict; `max_value` is NOT updated. -/
def StatisticValue.isub (s : StatisticValue) (now other : ℚ) : StatisticValue :=
  { value := s.value - other
    max_value := s.max_value
    hist := dictInsert now (s.value - other) s.hist }

/-- The comparison key of `sorted(self._history.items(), key=lambda x: x[0])`. -/
def byTime (a b : ℚ × ℚ) : Prop := a.1 ≤ b.1

instance : DecidableRel byTime :=
  fun a b => inferInstanceAs (Decidable (a.1 ≤ b.1))

instance : IsTotal (ℚ × ℚ) byTime :=
  ⟨fun a b => le_total a.1 b.1⟩

instance : IsTrans (ℚ × ℚ) byTime :=
  ⟨fun _ _ _ hab hbc => le_trans hab hbc⟩

/-- The `history` property: the dict items sorted ascending by time. -/
def StatisticValue.history (s : StatisticValue) : List (ℚ × ℚ) :=
  List.insertionSort byTime s.hist

/-- One mutation of a `StatisticValue`: `+= delta` or `-= delta` performed at
simulated time `now`. -/
inductive StatOp where
  | iadd (now delta : ℚ)
  | isub (now delta : ℚ)
deriving DecidableEq, Repr

/-- The simulated time at which a mutation happens. -/
def opTime : StatOp → ℚ
  | .iadd n _ => n
  | .isub n _ => n

/-- The value the counter holds right after applying the mutation to a
counter currently holding `v`. -/
def nextValue (v : ℚ) : StatOp → ℚ
  | .iadd _ d => v + d
  | .isub _ d => v - d

/-- Applies one mutation to a `StatisticValue`. -/
def StatisticValue.applyOp (s : StatisticValue) : StatOp → StatisticValue
  | .iadd n d => s.iadd n d
  | .isub n d => s.isub n d

/-- Runs a whole mutation sequence on a freshly constructed `StatisticValue`. -/
def runOps (ops : List StatOp) : StatisticValue :=
  ops.foldl StatisticValue.applyOp StatisticValue.init

/-- The `(time, written value)` stream of a mutation sequence started at
current value `v`: each mutation writes its new value at its time. -/
def writes (v : ℚ) : List StatOp → List (ℚ × ℚ)
  | [] => []
  | op :: rest => (opTime op, nextValue v op) :: writes (nextValue v op) rest

/-- Left-biased choice on optional values. -/
def oOr : Option ℚ → Option ℚ → Option ℚ
  | some x, _ => some x
  | none, b => b

/-- The value written by the latest write at time `t`, if any: entries later
in the stream take precedence. -/
def lastVal (t : ℚ) : List (ℚ × ℚ) → Option ℚ
  | [] => none
  | (k, w) :: ws => oOr (lastVal t ws) (if k = t then some w else none)

/-- The maximum of the initial value 0 and every value ever written to the
history over the whole run. -/
def runMax (ops : List StatOp) : ℚ :=
  ((writes 0 ops).map Prod.snd).foldl max 0

/-- Whether a mutation is safe for the running maximum: `__isub__` with a
nonnegative delta (any `__iadd__` is). -/
def subDeltaOk : StatOp → Bool
  | .iadd _ _ => true
  | .isub _ d => decide (0 ≤ d)

/-- One recorded stage visit, as appended by `Patient.add_visit`. -/
structure VisitRecord where
  type_ : String
  waiting_time : ℚ
  service_time : ℚ
deriving DecidableEq, Repr

/-- Embeds `Patient`: index, entry time, exit time (`None` until set) and the
ordered visit list. -/
structure Patient where
  index : ℤ
  enter : ℚ
  exit : Option ℚ
  visits : List VisitRecord
deriving DecidableEq, Repr

/-- `Patient.__init__`: appends the new patient to the class-level list
`Patient.all_created` (threaded explicitly as `all_created`), sets `index`,
`enter`, `exit = None` and an empty visit list. Returns the updated
class-level list and the new patient. -/
def Patient.create (all_created : List Patient) (index : ℤ) (enter : ℚ) :
    List Patient × Patient :=
  let p : Patient := { index := index, enter := enter, exit := none, visits := [] }
  (all_created ++ [p], p)

/-- The patient produced by `Patient(index, enter)`. -/
def mkPatient (a : ℤ × ℚ) : Patient :=
  { index := a.1, enter := a.2, exit := none, visits := [] }

/-- Runs a sequence of `Patient(...)` constructions against the class-level
`all_created` list, returning the final class-level list. -/
def createAll (g : List Patient) : List (ℤ × ℚ) → List Patient
  | [] => g
  | a :: rest => createAll (Patient.create g a.1 a.2).1 rest

/-- A fresh patient with index 0 entering at time 0, for concrete runs. -/
def pInit : Patient := (Patient.create [] 0 0).2

/-- `Patient.add_visit`: raise `ValueError(type_)` when the stage type is not
in `('therapist', 'doctor')` (the patient is untouched); otherwise floor each
duration strictly below 1 to 0 and append the record. The second component is
the raised exception payload, `none` when no exception is raised. -/
def Patient.add_visit (p : Patient) (type_ : String)
    (waiting_time service_time : ℚ) : Patient × Option String :=
  if ¬(type_ = "therapist" ∨ type_ = "doctor") then
    (p, some type_)
  else
    let wt := if waiting_time < 1 then 0 else waiting_time
    let st := if service_time < 1 then 0 else service_time
    ({ p with visits := p.visits ++ [⟨type_, wt, st⟩] }, none)

/-- `self.therapists_number = 8`, the capacity of the shared therapist pool. -/
def therapists_number : ℕ := 8

/-- `self.doctors_number = 10`. -/
def doctors_number : ℕ := 10

/-- Each specialist is `simpy.Resource(self.env)` with the default capacity. -/
def doctor_capacity : ℕ := 1

/-- Modelled from the spec: the resource-request suspension primitive (simpy,
not part of the repository source). A request finding a free slot and an empty
wait queue at request time is granted immediately, at the same simulated time,
without suspending; otherwise the requester suspends and is granted at some
later environment-determined time `tGrant`. -/
def requestGrantTime (count capacity queueLen : ℕ) (now tGrant : ℚ) : ℚ :=
  if count < capacity ∧ queueLen = 0 then now else tGrant

/-- Modelled from the spec: `random.normalvariate(mu, sigma)` is an external
sampler consumed by the core; it returns `mu + sigma * z` for a standard
normal deviate `z`, whose support is unbounded in both directions, and the
result is not clamped. -/
def normalvariate (mu sigma z : ℚ) : ℚ := mu + sigma * z

/-- `Polyclinic.doctor_process_time`: `normalvariate(mu, sigma)` with
`mu = 15 * 60` and `sigma = 2.5 * 60`, returned unclamped. -/
def doctor_process_time (z : ℚ) : ℚ := normalvariate (15 * 60) (2.5 * 60) z

/-- Everything one call of `visit_therapist` / `visit_doctor` produces:
the updated stage `StatisticValue`, the updated patient, the exception
propagated out of `add_visit` (always `none` on these paths), the waiting
time handed to `add_visit`, and the delay requested from `env.timeout`. -/
structure VisitOutcome where
  stat : StatisticValue
  patient : Patient
  raised : Option String
  waiting_time : ℚ
  service_timeout : ℚ
deriving DecidableEq, Repr

/-- Embeds `Polyclinic.visit_therapist`. Parameters describe the state the
environment presents: `count` therapists held and `queueLen` waiters at
request time, current time `now`, grant time `tGrant` when the request has to
suspend, and the sampled `therapist_process_time` value `serviceSample`.
If `self.therapists.count` is nonzero the queue statistic is incremented at
`now`, the process waits for the grant, the waiting time is measured and the
statistic decremented at the grant time; otherwise the waiting time is the
constant 0. Then the process holds the resource for the sampled duration and
appends the visit record. -/
def visit_therapist (stat : StatisticValue) (p : Patient)
    (count queueLen : ℕ) (now tGrant serviceSample : ℚ) : VisitOutcome :=
  let g := requestGrantTime count therapists_number queueLen now tGrant
  let sw : StatisticValue × ℚ :=
    if count ≠ 0 then ((stat.iadd now 1).isub g 1, g - now)
    else (stat, 0)
  let service_time := (g + serviceSample) - g
  let res := p.add_visit "therapist" sw.2 service_time
  { stat := sw.1, patient := res.1, raised := res.2,
    waiting_time := sw.2, service_timeout := serviceSample }

/-- Embeds `Polyclinic.visit_doctor` for the chosen specialist `index`:
`stat` is `queue_at_doctors[index]`, the resource has the default capacity 1,
and the service duration is `doctor_process_time` applied to the normal
deviate `z` drawn from the random stream. The appended record is tagged
`'therapist'`, exactly as in the source. -/
def visit_doctor (stat : StatisticValue) (p : Patient)
    (count queueLen : ℕ) (now tGrant z : ℚ) : VisitOutcome :=
  let g := requestGrantTime count doctor_capacity queueLen now tGrant
  let sw : StatisticValue × ℚ :=
    if count ≠ 0 then ((stat.iadd now 1).isub g 1, g - now)
    else (stat, 0)
  let sample := doctor_process_time z
  let service_time := (g + sample) - g
  let res := p.add_visit "therapist" sw.2 service_time
  { stat := sw.1, patient := res.1, raised := res.2,
    waiting_time := sw.2, service_timeout := sample }

/-- One stage visit of a patient flow, with the environment parameters the
embedding of that stage consumes. -/
inductive VisitStep where
  | therapist (count queueLen : ℕ) (now tGrant serviceSample : ℚ)
  | doctor (count queueLen : ℕ) (now tGrant z : ℚ)

/-- Threads a patient through a sequence of therapist/specialist visits
(each against a fresh stage statistic, which the patient fields never read). -/
def runVisits (p : Patient) : List VisitStep → Patient
  | [] => p
  | .therapist c q n t s :: rest =>
      runVisits (visit_therapist StatisticValue.init p c q n t s).patient rest
  | .doctor c q n t z :: rest =>
      runVisits (visit_doctor StatisticValue.init p c q n t z).patient rest

/-- Modelled from the spec: the terminal `Departed` transition of the patient
visit flow. The flow driver is not part of the provided source file; per the
spec it records `exit = now` and terminates the process. -/
def depart (p : Patient) (now : ℚ) : Patient :=
  { p with exit := some now }

/-! ## Helper lemmas -/

theorem applyOp_hist (s : StatisticValue) (op : StatOp) :
    (s.applyOp op).hist = dictInsert (opTime op) (nextValue s.value op) s.hist := by
  cases op <;> rfl

theorem applyOp_value (s : StatisticValue) (op : StatOp) :
    (s.applyOp op).value = nextValue s.value op := by
  cases op <;> rfl

theorem oOr_assoc (a b c : Option ℚ) : oOr (oOr a b) c = oOr a (oOr b c) := by
  cases a <;> rfl

theorem oOr_none_right (a : Option ℚ) : oOr a none = a := by
  cases a <;> rfl

theorem add_visit_exit (p : Patient) (t : String) (w s : ℚ) :
    ((p.add_visit t w s).1).exit = p.exit := by
  unfold Patient.add_visit
  split <;> rfl

theorem add_visit_therapist (p : Patient) (w s : ℚ) :
    p.add_visit "therapist" w s =
      ({ p with visits := p.visits ++
          [⟨"therapist", if w < 1 then 0 else w, if s < 1 then 0 else s⟩] }, none) := by
  unfold Patient.add_visit
  simp

theorem visit_therapist_patient_exit (stat : StatisticValue) (p : Patient)
    (count queueLen : ℕ) (now tGrant sample : ℚ) :
    (visit_therapist stat p count queueLen now tGrant sample).patient.exit = p.exit := by
  unfold visit_therapist
  exact add_visit_exit p "therapist" _ _

theorem visit_doctor_patient_exit (stat : StatisticValue) (p : Patient)
    (count queueLen : ℕ) (now tGrant z : ℚ) :
    (visit_doctor stat p count queueLen now tGrant z).patient.exit = p.exit := by
  unfold visit_doctor
  exact add_visit_exit p "therapist" _ _

theorem runVisits_exit (vs : List VisitStep) (p : Patient) :
    (runVisits p vs).exit = p.exit := by
  induction vs generalizing p with
  | nil => rfl
  | cons v rest ih =>
    cases v with
    | therapist c q n t s =>
      rw [runVisits, ih, visit_therapist_patient_exit]
    | doctor c q n t z =>
      rw [runVisits, ih, visit_doctor_patient_exit]

theorem createAll_eq (l : List (ℤ × ℚ)) (g : List Patient) :
    createAll g l = g ++ l.map mkPatient := by
  induction l generalizing g with
  | nil => simp [createAll]
  | cons a rest ih =>
    simp [createAll, Patient.create, ih, mkPatient]

theorem keys_dictInsert (k w t : ℚ) (d : List (ℚ × ℚ)) :
    t ∈ keys (dictInsert k w d) ↔ t = k ∨ t ∈ keys d := by
  induction d with
  | nil => simp [dictInsert, keys]
  | cons a rest ih =>
    obtain ⟨k', v'⟩ := a
    by_cases hk : k' = k
    · simp only [dictInsert, hk]
      simp only [if_true]
      simp only [keys, List.map_cons, List.mem_cons]
      tauto
    · simp only [dictInsert, if_neg hk]
      simp only [keys, List.map_cons, List.mem_cons] at ih ⊢
      rw [ih]
      tauto

theorem keys_nodup_dictInsert (k w : ℚ) (d : List (ℚ × ℚ)) :
    (keys d).Nodup → (keys (dictInsert k w d)).Nodup := by
  induction d with
  | nil => intro _; simp [dictInsert, keys]
  | cons a rest ih =>
    intro hn
    obtain ⟨k', v'⟩ := a
    simp only [keys, List.map_cons, List.nodup_cons] at hn
    obtain ⟨hk', hrest⟩ := hn
    by_cases hk : k' = k
    · simp only [dictInsert, hk]
      simp only [if_true]
      simp only [keys, List.map_cons, List.nodup_cons]
      refine ⟨?_, hrest⟩
      rw [← hk]
      exact hk'
    · simp only [dictInsert, if_neg hk, keys, List.map_cons, List.nodup_cons]
      refine ⟨?_, ih hrest⟩
      intro hmem
      rcases (keys_dictInsert k w k' rest).mp hmem with h | h
      · exact hk h
      · exact hk' h

theorem mem_dictInsert (k w t v : ℚ) (d : List (ℚ × ℚ)) :
    (keys d).Nodup →
      (((t, v) ∈ dictInsert k w d) ↔
        ((t = k ∧ v = w) ∨ ((t, v) ∈ d ∧ t ≠ k))) := by
  induction d with
  | nil =>
    intro _
    simp [dictInsert]
  | cons a rest ih =>
    intro hn
    obtain ⟨k', v'⟩ := a
    simp only [keys, List.map_cons, List.nodup_cons] at hn
    obtain ⟨hk', hrest⟩ := hn
    by_cases hk : k' = k
    · have hne2 : (t, v) ∈ rest → ¬ t = k := by
        intro hm hteq
        apply hk'
        rw [hk, ← hteq]
        exact List.mem_map_of_mem Prod.fst hm
      simp only [dictInsert, hk]
      simp only [if_true]
      simp only [List.mem_cons, Prod.mk.injEq]
      tauto
    · have hih := ih hrest
      have hne : t = k' → ¬ t = k := by
        intro h1 h2
        apply hk
        rw [← h1]
        exact h2
      simp only [dictInsert, if_neg hk, List.mem_cons, Prod.mk.injEq] at hih ⊢
      tauto

theorem foldl_hist (ops : List StatOp) :
    ∀ (s : StatisticValue) (F : ℚ → Option ℚ),
      (keys s.hist).Nodup →
      (∀ t v : ℚ, ((t, v) ∈ s.hist) ↔ F t = some v) →
      (keys (ops.foldl StatisticValue.applyOp s).hist).Nodup ∧
        ∀ t v : ℚ,
          ((t, v) ∈ (ops.foldl StatisticValue.applyOp s).hist) ↔
            oOr (lastVal t (writes s.value ops)) (F t) = some v := by
  induction ops with
  | nil =>
    intro s F hn hm
    refine ⟨hn, fun t v => ?_⟩
    simpa [writes, lastVal, oOr] using hm t v
  | cons op rest ih =>
    intro s F hn hm
    have hhist := applyOp_hist s op
    have hn' : (keys (s.applyOp op).hist).Nodup := by
      rw [hhist]
      exact keys_nodup_dictInsert _ _ _ hn
    have hm' : ∀ t v : ℚ, ((t, v) ∈ (s.applyOp op).hist) ↔
        (if t = opTime op then some (nextValue s.value op) else F t) = some v := by
      intro t v
      rw [hhist, mem_dictInsert _ _ _ _ _ hn]
      by_cases ht : t = opTime op
      · rw [if_pos ht]
        simp only [Option.some.injEq]
        constructor
        · rintro (⟨_, hv⟩ | ⟨_, hne⟩)
          · exact hv.symm
          · exact absurd ht hne
        · intro hv
          exact Or.inl ⟨ht, hv.symm⟩
      · rw [if_neg ht]
        rw [← hm t v]
        constructor
        · rintro (⟨hteq, _⟩ | ⟨hmem, _⟩)
          · exact absurd hteq ht
          · exact hmem
        · intro hmem
          exact Or.inr ⟨hmem, ht⟩
    obtain ⟨hn2, hm2⟩ := ih (s.applyOp op) _ hn' hm'
    have key : ∀ t : ℚ,
        oOr (if opTime op = t then some (nextValue s.value op) else none) (F t)
          = (if t = opTime op then some (nextValue s.value op) else F t) := by
      intro t
      by_cases ht : t = opTime op
      · rw [if_pos ht.symm, if_pos ht]
        rfl
      · rw [if_neg (fun h => ht h.symm), if_neg ht]
        rfl
    refine ⟨by simpa using hn2, fun t v => ?_⟩
    have hgoal := hm2 t v
    rw [applyOp_value] at hgoal
    simp only [List.foldl_cons]
    rw [hgoal]
    show _ ↔ oOr (lastVal t ((opTime op, nextValue s.value op) ::
      writes (nextValue s.value op) rest)) (F t) = some v
    rw [lastVal, oOr_assoc, key t]

theorem hist_spec (ops : List StatOp) :
    (keys (runOps ops).hist).Nodup ∧
      ∀ t v : ℚ, ((t, v) ∈ (runOps ops).hist) ↔ lastVal t (writes 0 ops) = some v := by
  obtain ⟨hn, hm⟩ := foldl_hist ops StatisticValue.init (fun _ => none)
    (by simp [StatisticValue.init, keys])
    (by intro t v; simp [StatisticValue.init])
  refine ⟨hn, fun t v => ?_⟩
  rw [runOps, hm t v, oOr_none_right]
  exact Iff.rfl

theorem foldl_max (ops : List StatOp) :
    ∀ s : StatisticValue,
      (∀ op ∈ ops, subDeltaOk op = true) →
      s.value ≤ s.max_value →
      (ops.foldl StatisticValue.applyOp s).max_value
          = ((writes s.value ops).map Prod.snd).foldl max s.max_value ∧
        (ops.foldl StatisticValue.applyOp s).value
          ≤ (ops.foldl StatisticValue.applyOp s).max_value := by
  induction ops with
  | nil =>
    intro s _ hv
    exact ⟨rfl, hv⟩
  | cons op rest ih =>
    intro s h hv
    have hd : subDeltaOk op = true := h op (List.mem_cons_self op rest)
    have hrest : ∀ o ∈ rest, subDeltaOk o = true :=
      fun o ho => h o (List.mem_cons_of_mem op ho)
    have hmax : (s.applyOp op).max_value = max s.max_value (nextValue s.value op) := by
      cases op with
      | iadd n d =>
        simp only [StatisticValue.applyOp, StatisticValue.iadd, nextValue]
        exact max_comm _ _
      | isub n d =>
        have hd0 : (0 : ℚ) ≤ d := by simpa [subDeltaOk] using hd
        have hle : s.value - d ≤ s.max_value := by linarith
        simp only [StatisticValue.applyOp, StatisticValue.isub, nextValue]
        exact (max_eq_left hle).symm
    have hvle : (s.applyOp op).value ≤ (s.applyOp op).max_value := by
      rw [applyOp_value, hmax]
      exact le_max_right _ _
    obtain ⟨h1, h2⟩ := ih (s.applyOp op) hrest hvle
    refine ⟨?_, by simpa using h2⟩
    simp only [List.foldl_cons]
    rw [h1, applyOp_value, hmax]
    show ((writes (nextValue s.value op) rest).map Prod.snd).foldl max
        (max s.max_value (nextValue s.value op))
      = ((writes s.value (op :: rest)).map Prod.snd).foldl max s.max_value
  
    rfl

/-! ## Claims -/

/-- Claim C1, counterexample: the claim states that the stage
`StatisticValue` is incremented/decremented exactly when the resource is
fully held, and is untouched whenever a free slot exists at request time.
With one of the eight therapists held (a free slot exists), `visit_therapist`
nevertheless mutates the queue statistic. -/
theorem c1_counterexample :
    1 < therapists_number ∧
      (visit_therapist StatisticValue.init pInit 1 0 0 0 300).stat
        ≠ StatisticValue.init := by
  refine ⟨by decide, fun h => ?_⟩
  have hmax := congrArg StatisticValue.max_value h
  norm_num [visit_therapist, requestGrantTime, StatisticValue.iadd,
    StatisticValue.isub, StatisticValue.init, therapists_number, max_def] at hmax

/-- Claim C1, amended: in `visit_therapist` and `visit_doctor` the stage
`StatisticValue` is incremented at request time and decremented at grant time
exactly when the held count is NONZERO at request time (which coincides with
fully held only for the capacity-1 specialist resources); when the held count
is zero the statistic is untouched and the waiting time is the constant 0. -/
theorem c1_amended_stat_bracketing (stat statD : StatisticValue) (p pD : Patient)
    (count queueLen countD queueLenD : ℕ)
    (now tGrant sample nowD tGrantD z : ℚ) :
    ((visit_therapist stat p count queueLen now tGrant sample).stat =
      if count = 0 then stat
      else (stat.iadd now 1).isub
        (requestGrantTime count therapists_number queueLen now tGrant) 1) ∧
    ((visit_therapist stat p count queueLen now tGrant sample).waiting_time =
      if count = 0 then 0
      else requestGrantTime count therapists_number queueLen now tGrant - now) ∧
    ((visit_doctor statD pD countD queueLenD nowD tGrantD z).stat =
      if countD = 0 then statD
      else (statD.iadd nowD 1).isub
        (requestGrantTime countD doctor_capacity queueLenD nowD tGrantD) 1) ∧
    ((visit_doctor statD pD countD queueLenD nowD tGrantD z).waiting_time =
      if countD = 0 then 0
      else requestGrantTime countD doctor_capacity queueLenD nowD tGrantD - nowD) := by
  unfold visit_therapist visit_doctor
  by_cases h : count = 0 <;> by_cases h2 : countD = 0 <;> simp [h, h2]

/-- Claim C2, code bug: evaluating `visit_doctor` at a completed specialist
visit shows the appended `VisitRecord` is tagged `"therapist"`, not a
specialist tag distinct from the therapist one. -/
theorem c2_specialist_record_mislabelled :
    ((visit_doctor StatisticValue.init pInit 0 0 0 0 0).patient.visits.map
        VisitRecord.type_) = ["therapist"] := by
  decide

/-- Claim C3: for a recognized stage type, `add_visit` records a waiting time
of exactly 0 when the given one is strictly below 1 and the given value
unchanged otherwise, and independently likewise for the service time. -/
theorem c3_add_visit_floor (p : Patient) (t : String) (w s : ℚ)
    (h : t = "therapist" ∨ t = "doctor") :
    (p.add_visit t w s).1.visits =
      p.visits ++ [⟨t, if w < 1 then 0 else w, if s < 1 then 0 else s⟩] := by
  unfold Patient.add_visit
  simp [h]

/-- Witness for C3 at a concrete input: waiting time 1/2 is floored to 0 and
service time 3/2 is kept unchanged. -/
theorem c3_add_visit_floor_witness :
    ("therapist" = "therapist" ∨ "therapist" = "doctor") ∧
      (pInit.add_visit "therapist" (1 / 2) (3 / 2)).1.visits =
        pInit.visits ++ [⟨"therapist", if (1 / 2 : ℚ) < 1 then 0 else 1 / 2,
          if (3 / 2 : ℚ) < 1 then 0 else 3 / 2⟩] :=
  ⟨Or.inl rfl, c3_add_visit_floor pInit "therapist" (1 / 2) (3 / 2) (Or.inl rfl)⟩

/-- Claim C4: when the requested resource has a free slot and an empty wait
queue at request time, the visit record appended by `visit_therapist` or
`visit_doctor` carries a waiting time of exactly 0. -/
theorem c4_free_slot_zero_wait (stat statD : StatisticValue) (p pD : Patient)
    (count queueLen countD queueLenD : ℕ)
    (now tGrant sample nowD tGrantD z : ℚ)
    (hT : count < therapists_number) (hTq : queueLen = 0)
    (hD : countD < doctor_capacity) (hDq : queueLenD = 0) :
    (visit_therapist stat p count queueLen now tGrant sample).patient.visits =
      p.visits ++ [⟨"therapist", 0, if sample < 1 then 0 else sample⟩] ∧
    (visit_doctor statD pD countD queueLenD nowD tGrantD z).patient.visits =
      pD.visits ++ [⟨"therapist", 0,
        if doctor_process_time z < 1 then 0 else doctor_process_time z⟩] := by
  subst hTq
  subst hDq
  have hD0 : countD = 0 := Nat.lt_one_iff.mp hD
  subst hD0
  constructor
  · unfold visit_therapist requestGrantTime
    rw [if_pos ⟨hT, rfl⟩]
    by_cases hc : count = 0 <;>
      simp [hc, add_visit_therapist, sub_self, add_sub_cancel_left, zero_lt_one]
  · unfold visit_doctor requestGrantTime
    rw [if_pos ⟨Nat.lt_one_iff.mpr rfl, rfl⟩]
    simp [add_visit_therapist, add_sub_cancel_left, zero_lt_one]

/-- Witness for C4 at a concrete input: three of eight therapists held and a
free capacity-1 specialist, both with empty queues, record waiting time 0. -/
theorem c4_free_slot_zero_wait_witness :
    (3 < therapists_number ∧ 0 < doctor_capacity) ∧
      (visit_therapist StatisticValue.init pInit 3 0 2 99 300).patient.visits =
        pInit.visits ++ [⟨"therapist", 0, if (300 : ℚ) < 1 then 0 else 300⟩] ∧
      (visit_doctor StatisticValue.init pInit 0 0 5 99 0).patient.visits =
        pInit.visits ++ [⟨"therapist", 0,
          if doctor_process_time 0 < 1 then 0 else doctor_process_time 0⟩] :=
  ⟨by decide,
    c4_free_slot_zero_wait StatisticValue.init StatisticValue.init pInit pInit
      3 0 0 0 2 99 300 5 99 0 (by decide) rfl (by decide) rfl⟩

/-- Claim C5, counterexample: the claim states `max_value` tracks the history
maximum for arbitrary deltas, but `__isub__` never updates `max_value`:
a single decrement by -1 writes the value 1 to the history while `max_value`
stays 0. -/
theorem c5_counterexample :
    (runOps [StatOp.isub 0 (-1)]).max_value ≠ runMax [StatOp.isub 0 (-1)] := by
  norm_num [runOps, runMax, writes, nextValue, opTime, StatisticValue.applyOp,
    StatisticValue.isub, StatisticValue.init, max_def]

/-- Claim C5, amended: whenever every `__isub__` delta is nonnegative (as in
the program, which only ever uses delta 1), `max_value` after any mutation
sequence equals the maximum of the initial value 0 and every value ever
written to the history during the run. -/
theorem c5_amended_max_tracks_history (ops : List StatOp)
    (h : ops.all subDeltaOk = true) :
    (runOps ops).max_value = runMax ops :=
  (foldl_max ops StatisticValue.init (List.all_eq_true.mp h) le_rfl).1

/-- Witness for C5 at a concrete mutation sequence with nonnegative
decrement deltas. -/
theorem c5_amended_max_witness :
    ([StatOp.iadd 0 2, StatOp.isub 1 1, StatOp.iadd 1 3].all subDeltaOk = true) ∧
      (runOps [StatOp.iadd 0 2, StatOp.isub 1 1, StatOp.iadd 1 3]).max_value
        = runMax [StatOp.iadd 0 2, StatOp.isub 1 1, StatOp.iadd 1 3] :=
  ⟨by decide, c5_amended_max_tracks_history _ (by decide)⟩

/-- Claim C6: `add_visit` raises exactly when the stage type is outside
`{'therapist', 'doctor'}` (the raised `ValueError` carries the type), and
when it raises the patient's visits list is unchanged. -/
theorem c6_add_visit_error_iff (p : Patient) (t : String) (w s : ℚ) :
    (((p.add_visit t w s).2 = some t) ↔ ¬(t = "therapist" ∨ t = "doctor")) ∧
    (((p.add_visit t w s).2 = none) ↔ (t = "therapist" ∨ t = "doctor")) ∧
    ((p.add_visit t w s).2 ≠ none → (p.add_visit t w s).1 = p) := by
  unfold Patient.add_visit
  by_cases h : t = "therapist" ∨ t = "doctor" <;> simp [h]

/-- Witness for C6 at the unrecognized stage type "registry": the call
raises with the offending type and leaves the patient unchanged. -/
theorem c6_add_visit_error_iff_witness :
    (((pInit.add_visit "registry" 2 3).2 = some "registry") ↔
        ¬("registry" = "therapist" ∨ "registry" = "doctor")) ∧
    (((pInit.add_visit "registry" 2 3).2 = none) ↔
        ("registry" = "therapist" ∨ "registry" = "doctor")) ∧
    ((pInit.add_visit "registry" 2 3).2 ≠ none →
        (pInit.add_visit "registry" 2 3).1 = pInit) :=
  c6_add_visit_error_iff pInit "registry" 2 3

/-- Claim C7: after any mutation sequence, `history` returns the entries
sorted strictly ascending by time, and an entry `(t, v)` appears in it
exactly when `v` is the value written by the latest mutation at time `t`
(last write wins per timestamp). -/
theorem c7_history_sorted_last_write_wins (ops : List StatOp) :
    List.Sorted (fun a b : ℚ × ℚ => a.1 < b.1) (runOps ops).history ∧
      ∀ t v : ℚ, ((t, v) ∈ (runOps ops).history) ↔
        lastVal t (writes 0 ops) = some v := by
  obtain ⟨hn, hm⟩ := hist_spec ops
  have hperm : ((runOps ops).history).Perm (runOps ops).hist :=
    List.perm_insertionSort byTime (runOps ops).hist
  constructor
  · have hs : List.Sorted byTime (runOps ops).history :=
      List.sorted_insertionSort byTime (runOps ops).hist
    have hnd : (((runOps ops).history).map Prod.fst).Nodup :=
      ((hperm.map Prod.fst).nodup_iff).mpr hn
    have hne : List.Pairwise (fun a b : ℚ × ℚ => a.1 ≠ b.1) (runOps ops).history :=
      List.pairwise_map.mp hnd
    exact (List.Pairwise.and hs hne).imp (fun h => lt_of_le_of_ne h.1 h.2)
  · intro t v
    rw [← hm t v]
    exact hperm.mem_iff

/-- Claim C8: a patient is constructed with `exit = None`, no stage visit
ever touches it, and the `Departed` transition sets it to the simulated time
of completion, after which it is no longer unset. -/
theorem c8_exit_set_at_departure (g : List Patient) (i : ℤ) (e : ℚ)
    (vs : List VisitStep) (tEnd : ℚ) :
    (runVisits (Patient.create g i e).2 vs).exit = none ∧
      (depart (runVisits (Patient.create g i e).2 vs) tEnd).exit = some tEnd := by
  constructor
  · rw [runVisits_exit]
    rfl
  · rfl

/-- Claim C9: every constructed patient is appended to the single class-level
`all_created` list at construction time, in construction order; a second
simulation run keeps extending the same list, so the patients of the first
run remain visible in it. -/
theorem c9_all_created_shared (g : List Patient) (run1 run2 : List (ℤ × ℚ)) :
    createAll g run1 = g ++ run1.map mkPatient ∧
      createAll (createAll g run1) run2 =
        g ++ run1.map mkPatient ++ run2.map mkPatient := by
  refine ⟨createAll_eq run1 g, ?_⟩
  rw [createAll_eq, createAll_eq, List.append_assoc]

/-- Claim C10: `doctor_process_time` is the unclamped sample
`mu + sigma * z` with mean 900 and standard deviation 150 seconds; the
standard normal deviate -7 yields a strictly negative service duration, and
`visit_doctor` then requests its service timeout with that negative delay. -/
theorem c10_negative_doctor_service :
    (∀ z : ℚ, doctor_process_time z = 15 * 60 + 2.5 * 60 * z) ∧
      doctor_process_time (-7) < 0 ∧
      (visit_doctor StatisticValue.init pInit 0 0 0 0 (-7)).service_timeout
        = doctor_process_time (-7) ∧
      (visit_doctor StatisticValue.init pInit 0 0 0 0 (-7)).service_timeout < 0 := by
  have h1 : doctor_process_time (-7) < 0 := by
    norm_num [doctor_process_time, normalvariate]
  refine ⟨fun _ => rfl, h1, rfl, ?_⟩
  show doctor_process_time (-7) < 0
  exact h1
